import Mathlib

/-!
Verification of the `cofyc/kubernetes` snippet set.

Three independent pieces are embedded, following the Go sources:

* `pkg/scheduler/framework/plugins/volumebinding/volume_binding.go` —
  the volume-binding scheduler plugin (Filter / Reserve / PreBind /
  Unreserve / PostBind, argument validation, the pod-deletion event
  handler registered in `New`).
* `pkg/controller/statefulset/delete_slots.go` — the delete-slots
  annotation codec (`getDeleteSlots` / `setDeleteSlot`).
* the `nsenter` symlink resolver (`EvalSymlinksAtNewRoot`,
  `walkSymlinks`, `walkLinks`, `walkLink`).

External collaborators (the volume binder, the filesystem) are modelled
as records of functions; the plugin operations additionally return the
list of collaborator calls they perform, so that "calls X exactly once"
and "performs no collaborator call" are provable statements.
-/

namespace volumebinding

/-- `v1.Volume`: the plugin only reads whether the volume has a
`PersistentVolumeClaim` source (carrying a claim name). -/
structure Volume where
  persistentVolumeClaim : Option String
deriving DecidableEq, Repr

/-- `v1.Pod`: identified by namespace+name, carrying its spec's volumes. -/
structure Pod where
  ns : String
  name : String
  volumes : List Volume
deriving DecidableEq, Repr

/-- `v1.Node`: the plugin only needs its identity. -/
structure Node where
  name : String
deriving DecidableEq, Repr

/-- `framework.NodeInfo`: `Node()` may return nil. -/
structure NodeInfo where
  node : Option Node
deriving DecidableEq, Repr

/-- Status codes used by the plugin (`framework.Error`,
`framework.UnschedulableAndUnresolvable`). -/
inductive Code where
  | error
  | unschedulableAndUnresolvable
deriving DecidableEq, Repr

/-- `framework.Status`: a code plus accumulated reasons. A `nil` status
(success) is modelled as `none : Option GoStatus`. -/
structure GoStatus where
  code : Code
  reasons : List String
deriving DecidableEq, Repr

/-- `framework.NewStatus(code, reasons...)`. -/
def newStatus (code : Code) (reasons : List String) : GoStatus :=
  ⟨code, reasons⟩

/-- `Status.AppendReason`. -/
def GoStatus.appendReason (s : GoStatus) (r : String) : GoStatus :=
  { s with reasons := s.reasons ++ [r] }

/-- The one state value this plugin stores (`allBoundStateData bool`);
other plugins may store values of other dynamic types, represented by
`otherData`, so that PreBind's type assertion can fail. -/
inductive StateData where
  | allBound (b : Bool)
  | otherData (tag : String)
deriving DecidableEq, Repr

/-- `framework.CycleState`: per-cycle key/value store. -/
def CycleState := List (String × StateData)

instance : DecidableEq CycleState := by
  unfold CycleState
  infer_instance

/-- `CycleState.Read`: error `"not found"` when the key is absent. -/
def CycleState.read (cs : CycleState) (key : String) : Except String StateData :=
  match cs.lookup key with
  | none => .error "not found"
  | some v => .ok v

/-- `CycleState.Write`. -/
def CycleState.write (cs : CycleState) (key : String) (v : StateData) : CycleState :=
  (key, v) :: cs

/-- `allBoundStateKey`. -/
def allBoundStateKey : String := "volumebinding:all-bound"

/-- A call made to the `scheduling.SchedulerVolumeBinder` collaborator. -/
inductive BinderCall where
  | findPodVolumes (pod : Pod) (node : Node)
  | assumePodVolumes (pod : Pod) (nodeName : String)
  | bindPodVolumes (pod : Pod)
  | deletePodBindings (pod : Pod)
deriving DecidableEq, Repr

/-- The `scheduling.SchedulerVolumeBinder` collaborator, as a record of
result functions.  `FindPodVolumes` yields incompatibility reasons or an
error; `AssumePodVolumes` yields the all-bound flag or an error;
`BindPodVolumes` yields `some msg` on failure, `none` on success;
`DeletePodBindings` returns nothing (only its occurrence in the call
trace matters). -/
structure SchedulerVolumeBinder where
  findPodVolumes : Pod → Node → Except String (List String)
  assumePodVolumes : Pod → String → Except String Bool
  bindPodVolumes : Pod → Option String

/-- `podHasPVCs`: whether any volume of the pod has a PVC source. -/
def podHasPVCs (pod : Pod) : Bool :=
  pod.volumes.any fun vol => vol.persistentVolumeClaim.isSome

/-- `VolumeBinding.Filter`.  Returns the status (`none` = success), the
trace of collaborator calls, and the (untouched) cycle state. -/
def filter (pl : SchedulerVolumeBinder) (cs : CycleState) (pod : Pod)
    (nodeInfo : NodeInfo) : Option GoStatus × List BinderCall × CycleState :=
  match nodeInfo.node with
  | none => (some (newStatus .error ["node not found"]), [], cs)
  | some node =>
    if !podHasPVCs pod then
      (none, [], cs)
    else
      match pl.findPodVolumes pod node with
      | .error err =>
        (some (newStatus .error [err]), [.findPodVolumes pod node], cs)
      | .ok reasons =>
        if reasons.length > 0 then
          (some (reasons.foldl GoStatus.appendReason
              (newStatus .unschedulableAndUnresolvable [])),
            [.findPodVolumes pod node], cs)
        else
          (none, [.findPodVolumes pod node], cs)

/-- `VolumeBinding.Reserve`. -/
def reserve (pl : SchedulerVolumeBinder) (cs : CycleState) (pod : Pod)
    (nodeName : String) : Option GoStatus × List BinderCall × CycleState :=
  match pl.assumePodVolumes pod nodeName with
  | .error err =>
    (some (newStatus .error [err]), [.assumePodVolumes pod nodeName], cs)
  | .ok allBound =>
    (none, [.assumePodVolumes pod nodeName],
      cs.write allBoundStateKey (.allBound allBound))

/-- `VolumeBinding.PreBind`. -/
def preBind (pl : SchedulerVolumeBinder) (cs : CycleState) (pod : Pod)
    (_nodeName : String) : Option GoStatus × List BinderCall :=
  match cs.read allBoundStateKey with
  | .error err => (some (newStatus .error [err]), [])
  | .ok state =>
    match state with
    | .allBound allBound =>
      if allBound then
        (none, [])
      else
        match pl.bindPodVolumes pod with
        | some err => (some (newStatus .error [err]), [.bindPodVolumes pod])
        | none => (none, [.bindPodVolumes pod])
    | .otherData _ =>
      (some (newStatus .error ["unable to convert state into allBoundStateData"]), [])

/-- `VolumeBinding.Unreserve`: deletes the pod's bindings, nothing else. -/
def unreserve (_pl : SchedulerVolumeBinder) (cs : CycleState) (pod : Pod)
    (_nodeName : String) : List BinderCall × CycleState :=
  ([.deletePodBindings pod], cs)

/-- `VolumeBinding.PostBind`: same deletion call as Unreserve. -/
def postBind (_pl : SchedulerVolumeBinder) (cs : CycleState) (pod : Pod)
    (_nodeName : String) : List BinderCall × CycleState :=
  ([.deletePodBindings pod], cs)

/-- Payload delivered to the pod-deletion event handler registered in
`New`: a `*v1.Pod`, a `cache.DeletedFinalStateUnknown` tombstone (whose
inner object may or may not be a pod), or some other type (identified by
a type-name string, standing for Go's `%T`). -/
inductive TombInner where
  | pod (p : Pod)
  | notPod (typeName : String)
deriving DecidableEq, Repr

inductive DeleteEventObj where
  | pod (p : Pod)
  | deletedFinalStateUnknown (inner : TombInner)
  | unknown (typeName : String)
deriving DecidableEq, Repr

/-- The `DeleteFunc` handler installed by `New`.  Returns the trace of
collaborator calls and the anomaly message passed to
`utilruntime.HandleError` (if any). -/
def deleteFunc (obj : DeleteEventObj) : List BinderCall × Option String :=
  match obj with
  | .pod p => ([.deletePodBindings p], none)
  | .deletedFinalStateUnknown inner =>
    match inner with
    | .pod p => ([.deletePodBindings p], none)
    | .notPod t =>
      ([], some ("unable to convert object " ++ t ++ " to *v1.Pod"))
  | .unknown t => ([], some ("unable to handle object " ++ t))

/-- `DefaultBindTimeoutSeconds`. -/
def DefaultBindTimeoutSeconds : Int := 600

/-- `Args`: the plugin configuration (`BindTimeoutSeconds *int64`). -/
structure Args where
  bindTimeoutSeconds : Option Int
deriving DecidableEq, Repr

/-- `validateArgs`: `some msg` = validation error. -/
def validateArgs (args : Args) : Option String :=
  match args.bindTimeoutSeconds with
  | none => none
  | some v =>
    if v ≤ 0 then
      some ("invalid BindTimeoutSeconds: " ++ toString v ++ ", must be positive integer")
    else
      none

/-- The effective bind timeout computed by `New` (after a successful
decode): validation failure aborts construction, an omitted field yields
the default, a supplied value is used unchanged. -/
def newBindTimeoutSeconds (args : Args) : Except String Int :=
  match validateArgs args with
  | some err => .error err
  | none =>
    match args.bindTimeoutSeconds with
    | none => .ok DefaultBindTimeoutSeconds
    | some v => .ok v

end volumebinding

/-- Go strings, modelled as lists of characters. -/
abbrev GoStr := List Char

/-- Split a string on a separator character (used for `/`-components of
paths and for the `,`-separated JSON array items).  Always returns a
non-empty list of parts; `joinWithChar sep` is its left inverse on
separator-free parts. -/
def splitOnChar (sep : Char) : GoStr → List GoStr
  | [] => [[]]
  | c :: rest =>
    let r := splitOnChar sep rest
    if c = sep then [] :: r
    else
      match r with
      | [] => [[c]]
      | h :: t => (c :: h) :: t

/-- Join parts with a separator character. -/
def joinWithChar (sep : Char) : List GoStr → GoStr
  | [] => []
  | [x] => x
  | x :: y :: t => x ++ sep :: joinWithChar sep (y :: t)

namespace statefulset

/-- The decimal digit character for `d < 10` (models `strconv`). -/
def digitChar (d : Nat) : Char := Char.ofNat (48 + d)

/-- Accumulate the decimal digits of `n` (most significant first) in
front of `acc`. -/
def natToDigitsAux (n : Nat) (acc : GoStr) : GoStr :=
  if h : n = 0 then acc
  else natToDigitsAux (n / 10) (digitChar (n % 10) :: acc)
termination_by n
decreasing_by exact Nat.div_lt_self (Nat.pos_of_ne_zero h) (by norm_num)

/-- Decimal rendering of a natural number. -/
def natToDigits (n : Nat) : GoStr :=
  if n = 0 then ['0'] else natToDigitsAux n []

/-- Decimal rendering of an integer, as produced by `encoding/json` for
a Go `int` (`-` followed by the magnitude when negative). -/
def intToDecimal (i : Int) : GoStr :=
  if i < 0 then '-' :: natToDigits i.natAbs else natToDigits i.natAbs

/-- The value of a decimal digit character, `none` for non-digits. -/
def digitVal (c : Char) : Option Nat :=
  if 48 ≤ c.toNat ∧ c.toNat ≤ 57 then some (c.toNat - 48) else none

/-- Parse a run of decimal digits, most significant first, onto an
accumulator; fails on any non-digit. -/
def parseNatAux (acc : Nat) : GoStr → Option Nat
  | [] => some acc
  | c :: rest =>
    match digitVal c with
    | none => none
    | some d => parseNatAux (acc * 10 + d) rest

/-- Parse a non-empty all-digit string. -/
def parseNat : GoStr → Option Nat
  | [] => none
  | c :: rest => parseNatAux 0 (c :: rest)

/-- Parse a (possibly negative) decimal integer. -/
def parseInt (l : GoStr) : Option Int :=
  if l.head? = some '-' then (parseNat l.tail).map fun n => -(n : Int)
  else (parseNat l).map fun n => (n : Int)

/-- `json.Marshal` of a `[]int`: `[` item `,` … `]`, no spaces; `[]` for
the empty slice. -/
def renderIntList (l : List Int) : GoStr :=
  '[' :: (joinWithChar ',' (l.map intToDecimal) ++ [']'])

/-- Parse every item of a split JSON array body as an integer. -/
def mapParseInt : List GoStr → Option (List Int)
  | [] => some []
  | x :: xs =>
    match parseInt x, mapParseInt xs with
    | some i, some is => some (i :: is)
    | _, _ => none

/-- `json.Unmarshal` of a JSON value into a `[]int`, modelled as a
strict decimal-integer-array parser (any input it rejects makes
`getDeleteSlots` return the empty set, like any `json.Unmarshal`
failure does in the source). -/
def parseIntList (l : GoStr) : Option (List Int) :=
  if l.head? = some '[' ∧ l.getLast? = some ']' then
    let inner := (l.drop 1).dropLast
    if inner = [] then some []
    else mapParseInt (splitOnChar ',' inner)
  else none

/-- `metav1.ObjectMeta`: the `Annotations` map (possibly nil), modelled
as an association list with leftmost-binding-wins lookup. -/
structure ObjectMeta where
  annotations : Option (List (String × GoStr))

/-- `apps.StatefulSet`: only its object metadata is read here. -/
structure StatefulSet where
  objectMeta : ObjectMeta

/-- `deletedSlotsAnnotation` (the annotation key). -/
def deletedSlotsKey : String := "delete-slots"

/-- `metav1.SetMetaDataAnnotation`: initializes the map when nil, then
sets the key. -/
def setMetaDataAnn (meta : ObjectMeta) (key : String) (value : GoStr) : ObjectMeta :=
  { meta with annotations := some ((key, value) :: meta.annotations.getD []) }

/-- `sets.Int.Insert(slice...)` starting from a given set. -/
def insertSlice (s : Finset Int) (slice : List Int) : Finset Int :=
  slice.foldl (fun t i => insert i t) s

/-- `getDeleteSlots`: reads the delete-slots annotation; every failure
path (nil map, absent key, undecodable value) yields the empty set. -/
def getDeleteSlots (set : StatefulSet) : Finset Int :=
  match set.objectMeta.annotations with
  | none => ∅
  | some anns =>
    match anns.lookup deletedSlotsKey with
    | none => ∅
    | some value =>
      match parseIntList value with
      | none => ∅
      | some slice => insertSlice ∅ slice

/-- `setDeleteSlot`: marshals `deleteSlots.List()` (the sorted element
list) and stores it under the annotation key.  `json.Marshal` of a
`[]int` cannot fail, so the source's error return is always nil and the
operation is modelled as total. -/
def setDeleteSlot (set : StatefulSet) (deleteSlots : Finset Int) : StatefulSet :=
  { set with
    objectMeta := setMetaDataAnn set.objectMeta deletedSlotsKey
      (renderIntList (deleteSlots.sort (· ≤ ·))) }

end statefulset

namespace nsenter

/-- The result of `os.Lstat`, restricted to what `walkLink` reads. -/
structure FileInfo where
  isSymlink : Bool

/-- The filesystem, as seen through `os.Lstat` / `os.Readlink`
(external collaborators; errors carry a message). -/
structure FS where
  lstat : GoStr → Except String FileInfo
  readlink : GoStr → Except String GoStr

/-- `filepath.IsAbs` (unix). -/
def isAbs (p : GoStr) : Bool := p.head? = some '/'

/-- `isRoot`. -/
def isRoot (p : GoStr) : Bool := p = ['/']

/-- Process already-split path components against a stack, eliding `.`
and empty components and resolving `..` (models `filepath.Clean`'s
element processing). -/
def cleanStack (rooted : Bool) (stack : List GoStr) : List GoStr → List GoStr
  | [] => stack.reverse
  | comp :: rest =>
    if comp = [] ∨ comp = ['.'] then cleanStack rooted stack rest
    else if comp = ['.', '.'] then
      match stack with
      | [] =>
        if rooted then cleanStack rooted [] rest
        else cleanStack rooted [['.', '.']] rest
      | top :: stk =>
        if top = ['.', '.'] then cleanStack rooted (comp :: top :: stk) rest
        else cleanStack rooted stk rest
    else cleanStack rooted (comp :: stack) rest

/-- `filepath.Clean` (unix semantics): shortest lexically-equivalent
path. -/
def clean (path : GoStr) : GoStr :=
  if path = [] then ['.']
  else
    let rooted := isAbs path
    match rooted, cleanStack rooted [] (splitOnChar '/' path) with
    | true, [] => ['/']
    | true, comps => '/' :: joinWithChar '/' comps
    | false, [] => ['.']
    | false, comps => joinWithChar '/' comps

/-- `filepath.Join` of two elements: empty elements are skipped, the
rest joined with `/` and cleaned; all-empty yields the empty string. -/
def joinPath (a b : GoStr) : GoStr :=
  if a = [] then (if b = [] then [] else clean b)
  else if b = [] then clean a
  else clean (a ++ '/' :: b)

/-- `strings.TrimPrefix`. -/
def trimPfx (s p : GoStr) : GoStr :=
  if p.isPrefixOf s then s.drop p.length else s

/-- `filepath.Split`: `(path[:i+1], path[i+1:])` where `i` is the last
separator position.  `lastSepPos` is that `i+1` (`0` when there is no
separator). -/
def lastSepPos : GoStr → Nat
  | [] => 0
  | c :: rest =>
    let r := lastSepPos rest
    if r = 0 then (if c = '/' then 1 else 0) else r + 1

def splitPath (p : GoStr) : GoStr × GoStr :=
  (p.take (lastSepPos p), p.drop (lastSepPos p))

/-- The error returned once more than 255 links have been walked. -/
def tooManyLinksErr : String := "EvalSymlinks: too many links"

/-- `walkLink`: resolves one path that may be a symlink.  The walked-
links counter (a `*int` in the source) is passed and returned
explicitly.  Returns `(newpath, islink, counter)`.  An absolute link
target inside `oldroot` is re-rooted; one outside `oldroot` is reported
as not existing (the message of the source's `os.PathError`). -/
def walkLink (fs : FS) (path oldroot newroot : GoStr) (linksWalked : Nat) :
    Except String (GoStr × Bool × Nat) :=
  if 255 < linksWalked then .error tooManyLinksErr
  else
    match fs.lstat (joinPath newroot path) with
    | .error e => .error e
    | .ok fi =>
      if !fi.isSymlink then .ok (path, false, linksWalked)
      else
        match fs.readlink (joinPath newroot path) with
        | .error e => .error e
        | .ok newpath =>
          let lw := linksWalked + 1
          if isAbs newpath then
            if oldroot.isPrefixOf newpath then
              .ok (clean ('/' :: trimPfx newpath oldroot), true, lw)
            else .error "readlink: file does not exist"
          else .ok (newpath, true, lw)

/-- `walkLinks`: resolves the links in every component of `path`,
recursing on the directory part. -/
def walkLinks (fs : FS) (path oldroot newroot : GoStr) (linksWalked : Nat) :
    Except String (GoStr × Nat) :=
  match hsp : splitPath path with
  | (dir, file) =>
  if hdir : dir = [] then
    match walkLink fs file oldroot newroot linksWalked with
    | .error e => .error e
    | .ok (newpath, _, lw) => .ok (newpath, lw)
  else if hfile : file = [] then
    if dir.getLast? = some '/' then
      if isRoot dir then .ok (dir, linksWalked)
      else walkLinks fs dir.dropLast oldroot newroot linksWalked
    else
      match walkLink fs dir oldroot newroot linksWalked with
      | .error e => .error e
      | .ok (newpath, _, lw) => .ok (newpath, lw)
  else
    match walkLinks fs dir oldroot newroot linksWalked with
    | .error e => .error e
    | .ok (newdir, lw1) =>
      match walkLink fs (joinPath newdir file) oldroot newroot lw1 with
      | .error e => .error e
      | .ok (newpath, islink, lw2) =>
        if !islink then .ok (newpath, lw2)
        else if isAbs newpath ∨ newpath.head? = some '/' then .ok (newpath, lw2)
        else .ok (joinPath newdir newpath, lw2)
termination_by path.length
decreasing_by
  · simp only [splitPath, Prod.mk.injEq] at hsp
    obtain ⟨hd, hf⟩ := hsp
    subst hd
    have h4 : 0 < (path.take (lastSepPos path)).length :=
      List.length_pos.mpr hdir
    have h1 : (path.take (lastSepPos path)).length ≤ path.length := by
      simp [List.length_take]
    simp only [List.length_dropLast]
    omega
  · simp only [splitPath, Prod.mk.injEq] at hsp
    obtain ⟨hd, hf⟩ := hsp
    subst hd
    subst hf
    have h3 : 0 < (path.drop (lastSepPos path)).length :=
      List.length_pos.mpr hfile
    have h1 : (path.drop (lastSepPos path)).length = path.length - lastSepPos path := by
      simp [List.length_drop]
    simp only [List.length_take]
    omega

/-- The `for` loop of `walkSymlinks`, with an explicit iteration budget
(`none` = budget exhausted; the source's loop is unbounded, and the
termination theorem shows a budget of 258 is never exhausted).  An
iteration that leaves the counter unchanged returns the cleaned path;
otherwise the loop re-resolves the new path. -/
def walkSymlinksLoop (fs : FS) (oldroot newroot : GoStr) :
    Nat → GoStr → Nat → Option (Except String GoStr)
  | 0, _, _ => none
  | fuel + 1, path, linksWalked =>
    match walkLinks fs path oldroot newroot linksWalked with
    | .error e => some (.error e)
    | .ok (newpath, lw) =>
      if lw = linksWalked then some (.ok (clean newpath))
      else walkSymlinksLoop fs oldroot newroot fuel newpath lw

/-- `walkSymlinks`: empty paths are returned as-is; otherwise the
re-resolution loop runs with a zero counter. -/
def walkSymlinks (fs : FS) (path oldroot newroot : GoStr) :
    Option (Except String GoStr) :=
  if path = [] then some (.ok path)
  else walkSymlinksLoop fs oldroot newroot 258 path 0

/-- `EvalSymlinksAtNewRoot`. -/
def EvalSymlinksAtNewRoot (fs : FS) (path oldroot newroot : GoStr) :
    Option (Except String GoStr) :=
  walkSymlinks fs path (clean oldroot) (clean newroot)

end nsenter


/-! ### Concrete fixtures used by the witness theorems -/

namespace volumebinding

def pod0 : Pod := ⟨"default", "pod-a", []⟩

def podPVC : Pod := ⟨"default", "pod-b", [⟨some "claim-1"⟩]⟩

def node0 : Node := ⟨"node-1"⟩

def binder0 : SchedulerVolumeBinder :=
  ⟨fun _ _ => .ok [], fun _ _ => .ok true, fun _ => none⟩

def binderReasons : SchedulerVolumeBinder :=
  ⟨fun _ _ => .ok ["node(s) had no available persistent volumes"],
   fun _ _ => .ok false, fun _ => some "bind failed"⟩

end volumebinding

namespace nsenter

def fsNone : FS :=
  ⟨fun _ => .error "lstat: file does not exist",
   fun _ => .error "readlink: invalid argument"⟩

end nsenter

namespace statefulset

def setNil : StatefulSet := ⟨⟨none⟩⟩

def setEmptyAnns : StatefulSet := ⟨⟨some []⟩⟩

def setBadValue : StatefulSet := ⟨⟨some [(deletedSlotsKey, 'b' :: 'o' :: 'g' :: 'u' :: 's' :: [])]⟩⟩

end statefulset

/-! ### Theorems -/

namespace volumebinding

/-- Appending each reason of `l` to a status accumulates exactly `l`. -/
theorem foldl_appendReason (l : List String) (c : Code) (rs : List String) :
    l.foldl GoStatus.appendReason ⟨c, rs⟩ = ⟨c, rs ++ l⟩ := by
  induction l generalizing rs with
  | nil => simp
  | cons x xs ih => simp [GoStatus.appendReason, ih]

/-- C1: for every pod, node name and per-cycle state, PreBind returns a
hard `Error` when the per-cycle key is missing or its value has the
wrong shape; a stored `true` flag yields success with no bind call; a
stored `false` flag yields exactly one bind call, success when bind
succeeds and an `Error` carrying the underlying message when it
fails. -/
theorem c1_preBind_spec (pl : SchedulerVolumeBinder) (cs : CycleState)
    (pod : Pod) (nodeName : String) :
    (∀ e, cs.read allBoundStateKey = .error e →
      preBind pl cs pod nodeName = (some (newStatus .error [e]), [])) ∧
    (∀ tag, cs.read allBoundStateKey = .ok (.otherData tag) →
      preBind pl cs pod nodeName =
        (some (newStatus .error ["unable to convert state into allBoundStateData"]), [])) ∧
    (cs.read allBoundStateKey = .ok (.allBound true) →
      preBind pl cs pod nodeName = (none, [])) ∧
    (cs.read allBoundStateKey = .ok (.allBound false) →
      (pl.bindPodVolumes pod = none →
        preBind pl cs pod nodeName = (none, [.bindPodVolumes pod])) ∧
      (∀ e, pl.bindPodVolumes pod = some e →
        preBind pl cs pod nodeName =
          (some (newStatus .error [e]), [.bindPodVolumes pod]))) := by
  refine ⟨?_, ?_, ?_, ?_⟩
  · intro e he
    simp [preBind, he]
  · intro tag ht
    simp [preBind, ht]
  · intro h
    simp [preBind, h]
  · intro h
    refine ⟨?_, ?_⟩
    · intro hb
      simp [preBind, h, hb]
    · intro e hb
      simp [preBind, h, hb]

theorem c1_preBind_spec_witness :
    preBind binder0 [(allBoundStateKey, StateData.allBound true)] pod0 "node-1"
      = (none, []) :=
  (c1_preBind_spec binder0 [(allBoundStateKey, StateData.allBound true)]
    pod0 "node-1").2.2.1 rfl

/-- C2: Reserve surfaces an assume error as a hard `Error` and leaves
the per-cycle state unchanged; on success it records the all-bound flag
under the plugin's key and returns success.  In both cases assume is the
only collaborator call. -/
theorem c2_reserve_spec (pl : SchedulerVolumeBinder) (cs : CycleState)
    (pod : Pod) (nodeName : String) :
    (∀ e, pl.assumePodVolumes pod nodeName = .error e →
      reserve pl cs pod nodeName =
        (some (newStatus .error [e]), [.assumePodVolumes pod nodeName], cs)) ∧
    (∀ b, pl.assumePodVolumes pod nodeName = .ok b →
      reserve pl cs pod nodeName =
        (none, [.assumePodVolumes pod nodeName],
          cs.write allBoundStateKey (.allBound b))) := by
  constructor
  · intro e he
    simp [reserve, he]
  · intro b hb
    simp [reserve, hb]

theorem c2_reserve_spec_witness :
    reserve binder0 [] pod0 "node-1" =
      (none, [.assumePodVolumes pod0 "node-1"],
        [(allBoundStateKey, StateData.allBound true)]) :=
  (c2_reserve_spec binder0 [] pod0 "node-1").2 true rfl

/-- C3: for a pod with at least one volume-claim reference and a
non-nil node, Filter's outcome follows the find result: an error yields
a hard `Error` with the underlying message, a non-empty reason list
yields `UnschedulableAndUnresolvable` carrying every reason verbatim,
and an empty reason list yields success. -/
theorem c3_filter_find_spec (pl : SchedulerVolumeBinder) (cs : CycleState)
    (pod : Pod) (node : Node)
    (hpvc : ∃ vol ∈ pod.volumes, vol.persistentVolumeClaim ≠ none) :
    (∀ e, pl.findPodVolumes pod node = .error e →
      filter pl cs pod ⟨some node⟩ =
        (some (newStatus .error [e]), [.findPodVolumes pod node], cs)) ∧
    (∀ reasons, pl.findPodVolumes pod node = .ok reasons → reasons ≠ [] →
      filter pl cs pod ⟨some node⟩ =
        (some ⟨.unschedulableAndUnresolvable, reasons⟩,
          [.findPodVolumes pod node], cs)) ∧
    (pl.findPodVolumes pod node = .ok [] →
      filter pl cs pod ⟨some node⟩ = (none, [.findPodVolumes pod node], cs)) := by
  have hb : podHasPVCs pod = true := by
    obtain ⟨vol, hmem, hv⟩ := hpvc
    simp only [podHasPVCs, List.any_eq_true]
    exact ⟨vol, hmem, by simp [Option.isSome_iff_ne_none, hv]⟩
  refine ⟨?_, ?_, ?_⟩
  · intro e he
    simp [filter, hb, he]
  · intro reasons hr hne
    have hlen : reasons.length > 0 := List.length_pos.mpr hne
    simp [filter, hb, hr, hlen, foldl_appendReason, newStatus]
  · intro h
    simp [filter, hb, h]

theorem c3_filter_find_spec_witness :
    filter binderReasons [] podPVC ⟨some node0⟩ =
      (some ⟨.unschedulableAndUnresolvable,
          ["node(s) had no available persistent volumes"]⟩,
        [.findPodVolumes podPVC node0], []) :=
  (c3_filter_find_spec binderReasons [] podPVC node0
    ⟨⟨some "claim-1"⟩, by simp [podPVC], by simp⟩).2.1
    ["node(s) had no available persistent volumes"] rfl (by simp)

/-- C4: a pod none of whose volumes has a persistent-volume-claim
source passes Filter immediately on any non-nil node: success, no
collaborator call, per-cycle state untouched. -/
theorem c4_filter_no_pvcs (pl : SchedulerVolumeBinder) (cs : CycleState)
    (pod : Pod) (nodeInfo : NodeInfo)
    (h : ∀ vol ∈ pod.volumes, vol.persistentVolumeClaim = none)
    (node : Node) (hn : nodeInfo.node = some node) :
    filter pl cs pod nodeInfo = (none, [], cs) := by
  have hb : podHasPVCs pod = false := by
    simp only [podHasPVCs, List.any_eq_false]
    intro vol hmem
    simp [h vol hmem]
  simp [filter, hn, hb]

theorem c4_filter_no_pvcs_witness :
    filter binder0 [] pod0 ⟨some node0⟩ = (none, [], []) :=
  c4_filter_no_pvcs binder0 [] pod0 ⟨some node0⟩ (by simp [pod0]) node0 rfl

/-- C5: Filter with an absent node reference is a hard `Error`
(`"node not found"`), never an unschedulable outcome, regardless of the
pod's claims; no collaborator call is made and the state is untouched. -/
theorem c5_filter_nil_node (pl : SchedulerVolumeBinder) (cs : CycleState)
    (pod : Pod) (nodeInfo : NodeInfo) (h : nodeInfo.node = none) :
    filter pl cs pod nodeInfo = (some (newStatus .error ["node not found"]), [], cs) ∧
    ∀ st, (filter pl cs pod nodeInfo).1 = some st → st.code = Code.error := by
  constructor
  · simp [filter, h]
  · intro st hst
    simp [filter, h] at hst
    simp [← hst, newStatus]

theorem c5_filter_nil_node_witness :
    filter binder0 [] podPVC ⟨none⟩ =
      (some (newStatus .error ["node not found"]), [], []) :=
  (c5_filter_nil_node binder0 [] podPVC ⟨none⟩ rfl).1

/-- C6: plugin construction fails exactly when a bind timeout of zero or
a negative value is supplied; an omitted field yields the 600-second
default; a supplied positive value is used unchanged. -/
theorem c6_bindTimeout_spec (args : Args) :
    ((∃ e, newBindTimeoutSeconds args = .error e) ↔
      ∃ v, args.bindTimeoutSeconds = some v ∧ v ≤ 0) ∧
    (args.bindTimeoutSeconds = none → newBindTimeoutSeconds args = .ok 600) ∧
    (∀ v, args.bindTimeoutSeconds = some v → 0 < v →
      newBindTimeoutSeconds args = .ok v) := by
  obtain ⟨(_ | v)⟩ := args
  · refine ⟨?_, ?_, ?_⟩
    · simp [newBindTimeoutSeconds, validateArgs]
    · intro
      simp [newBindTimeoutSeconds, validateArgs, DefaultBindTimeoutSeconds]
    · intro v hv
      simp at hv
  · refine ⟨?_, ?_, ?_⟩
    · by_cases hv : v ≤ 0
      · simp [newBindTimeoutSeconds, validateArgs, hv]
      · simp [newBindTimeoutSeconds, validateArgs, hv]
    · intro h
      simp at h
    · intro w hw hpos
      have hvw : v = w := by injection hw
      subst hvw
      have hv : ¬v ≤ 0 := by omega
      simp [newBindTimeoutSeconds, validateArgs, hv]

theorem c6_bindTimeout_spec_witness :
    newBindTimeoutSeconds ⟨none⟩ = .ok 600 ∧
    newBindTimeoutSeconds ⟨some 30⟩ = .ok 30 ∧
    (∃ e, newBindTimeoutSeconds ⟨some 0⟩ = .error e) ∧
    (∃ e, newBindTimeoutSeconds ⟨some (-5)⟩ = .error e) :=
  ⟨(c6_bindTimeout_spec ⟨none⟩).2.1 rfl,
   (c6_bindTimeout_spec ⟨some 30⟩).2.2 30 rfl (by norm_num),
   (c6_bindTimeout_spec ⟨some 0⟩).1.mpr ⟨0, rfl, le_refl 0⟩,
   (c6_bindTimeout_spec ⟨some (-5)⟩).1.mpr ⟨-5, rfl, by norm_num⟩⟩

/-- C7: Unreserve and PostBind are extensionally equal: each performs
exactly one idempotent delete call, touches no per-cycle state, makes no
other collaborator call and returns no status. -/
theorem c7_unreserve_postBind_eq (pl : SchedulerVolumeBinder) (cs : CycleState)
    (pod : Pod) (nodeName : String) :
    unreserve pl cs pod nodeName = ([.deletePodBindings pod], cs) ∧
    postBind pl cs pod nodeName = unreserve pl cs pod nodeName :=
  ⟨rfl, rfl⟩

/-- C8: the deletion handler performs the same delete call as Unreserve
when the payload is a pod or a tombstone wrapping a pod; otherwise it
reports the anomaly and performs no delete call. -/
theorem c8_deleteFunc_spec (obj : DeleteEventObj) :
    (∀ p, obj = .pod p →
      deleteFunc obj = ([.deletePodBindings p], none) ∧
      ∀ pl cs nodeName, (deleteFunc obj).1 = (unreserve pl cs p nodeName).1) ∧
    (∀ p, obj = .deletedFinalStateUnknown (.pod p) →
      deleteFunc obj = ([.deletePodBindings p], none) ∧
      ∀ pl cs nodeName, (deleteFunc obj).1 = (unreserve pl cs p nodeName).1) ∧
    (∀ t, obj = .deletedFinalStateUnknown (.notPod t) →
      (deleteFunc obj).1 = [] ∧ ((deleteFunc obj).2).isSome = true) ∧
    (∀ t, obj = .unknown t →
      (deleteFunc obj).1 = [] ∧ ((deleteFunc obj).2).isSome = true) := by
  refine ⟨?_, ?_, ?_, ?_⟩
  · rintro p rfl
    exact ⟨rfl, fun _ _ _ => rfl⟩
  · rintro p rfl
    exact ⟨rfl, fun _ _ _ => rfl⟩
  · rintro t rfl
    exact ⟨rfl, rfl⟩
  · rintro t rfl
    exact ⟨rfl, rfl⟩

theorem c8_deleteFunc_spec_witness :
    deleteFunc (.pod pod0) = ([.deletePodBindings pod0], none) :=
  ((c8_deleteFunc_spec (.pod pod0)).1 pod0 rfl).1

end volumebinding

namespace statefulset

/-- Digit characters parse back to their value. -/
theorem digitVal_digitChar (m : Nat) (hm : m < 10) :
    digitVal (digitChar m) = some m := by
  interval_cases m <;> decide

/-- One parsing step on a digit character. -/
theorem parseNatAux_cons_digit (a m : Nat) (hm : m < 10) (rest : GoStr) :
    parseNatAux a (digitChar m :: rest) = parseNatAux (a * 10 + m) rest := by
  rw [parseNatAux, digitVal_digitChar m hm]

/-- Digit characters are neither `-` nor `,`. -/
theorem digitChar_ne_special (m : Nat) (hm : m < 10) :
    digitChar m ≠ '-' ∧ digitChar m ≠ ',' := by
  interval_cases m <;> exact ⟨by decide, by decide⟩

/-- Accumulating digits only prepends digit characters. -/
theorem mem_natToDigitsAux (n : Nat) :
    ∀ acc c, c ∈ natToDigitsAux n acc →
      c ∈ acc ∨ ∃ m, m < 10 ∧ c = digitChar m := by
  induction n using Nat.strong_induction_on with
  | _ n ih =>
    intro acc c hc
    by_cases h : n = 0
    · subst h
      rw [natToDigitsAux] at hc
      simpa using Or.inl hc
    · rw [natToDigitsAux, dif_neg h] at hc
      have h10 : n / 10 < n := Nat.div_lt_self (Nat.pos_of_ne_zero h) (by norm_num)
      rcases ih _ h10 _ _ hc with hin | hdig
      · rcases List.mem_cons.mp hin with heq | hin2
        · exact Or.inr ⟨n % 10, Nat.mod_lt _ (by norm_num), heq⟩
        · exact Or.inl hin2
      · exact Or.inr hdig

/-- Length of the accumulated digit string. -/
theorem natToDigitsAux_len (n : Nat) :
    ∀ acc, (natToDigitsAux n acc).length = (natToDigitsAux n []).length + acc.length := by
  induction n using Nat.strong_induction_on with
  | _ n ih =>
    intro acc
    by_cases h : n = 0
    · subst h
      simp [natToDigitsAux]
    · have h10 : n / 10 < n := Nat.div_lt_self (Nat.pos_of_ne_zero h) (by norm_num)
      rw [natToDigitsAux, dif_neg h]
      conv_rhs => rw [natToDigitsAux, dif_neg h]
      rw [ih _ h10 (digitChar (n % 10) :: acc), ih _ h10 [digitChar (n % 10)]]
      simp
      omega

/-- `natToDigitsAux` is non-empty for a non-zero input. -/
theorem natToDigitsAux_ne_nil (n : Nat) (h : n ≠ 0) (acc : GoStr) :
    natToDigitsAux n acc ≠ [] := by
  rw [natToDigitsAux, dif_neg h]
  intro hcontra
  have := natToDigitsAux_len (n / 10) (digitChar (n % 10) :: acc)
  rw [hcontra] at this
  simp only [List.length_nil, List.length_cons] at this
  omega

/-- Parsing the rendered digits of `n` in front of `acc` shifts `n`
into the accumulator. -/
theorem parseNatAux_digits (n : Nat) :
    ∀ acc a, parseNatAux a (natToDigitsAux n acc)
      = parseNatAux (a * 10 ^ (natToDigitsAux n []).length + n) acc := by
  induction n using Nat.strong_induction_on with
  | _ n ih =>
    intro acc a
    by_cases h : n = 0
    · subst h
      simp [natToDigitsAux]
    · have h10 : n / 10 < n := Nat.div_lt_self (Nat.pos_of_ne_zero h) (by norm_num)
      rw [natToDigitsAux, dif_neg h]
      rw [ih _ h10 (digitChar (n % 10) :: acc) a]
      rw [parseNatAux_cons_digit _ _ (Nat.mod_lt _ (by norm_num)) acc]
      conv_rhs => rw [natToDigitsAux, dif_neg h]
      rw [natToDigitsAux_len (n / 10) [digitChar (n % 10)]]
      simp only [List.length_singleton]
      have key : n / 10 * 10 + n % 10 = n := by omega
      set L := (natToDigitsAux (n / 10) []).length with hL
      have harith : (a * 10 ^ L + n / 10) * 10 + n % 10 = a * 10 ^ (L + 1) + n := by
        calc (a * 10 ^ L + n / 10) * 10 + n % 10
            = a * 10 ^ L * 10 + (n / 10 * 10 + n % 10) := by ring
          _ = a * 10 ^ L * 10 + n := by rw [key]
          _ = a * 10 ^ (L + 1) + n := by ring
      rw [harith]

/-- Non-empty strings parse through `parseNatAux`. -/
theorem parseNat_eq_aux (l : GoStr) (h : l ≠ []) : parseNat l = parseNatAux 0 l := by
  cases l with
  | nil => exact absurd rfl h
  | cons c rest => rfl

/-- Decimal round trip on naturals. -/
theorem parseNat_natToDigits (n : Nat) : parseNat (natToDigits n) = some n := by
  by_cases h : n = 0
  · subst h
    decide
  · unfold natToDigits
    rw [if_neg h]
    rw [parseNat_eq_aux _ (natToDigitsAux_ne_nil n h [])]
    rw [parseNatAux_digits n [] 0]
    simp [parseNatAux]

/-- Every character of `natToDigits` is a digit character. -/
theorem mem_natToDigits (n : Nat) (c : Char) (hc : c ∈ natToDigits n) :
    ∃ m, m < 10 ∧ c = digitChar m := by
  unfold natToDigits at hc
  by_cases h : n = 0
  · rw [if_pos h] at hc
    simp at hc
    exact ⟨0, by norm_num, by rw [hc]; decide⟩
  · rw [if_neg h] at hc
    rcases mem_natToDigitsAux n [] c hc with h1 | h2
    · simp at h1
    · exact h2

/-- `natToDigits` is never empty. -/
theorem natToDigits_ne_nil (n : Nat) : natToDigits n ≠ [] := by
  unfold natToDigits
  by_cases h : n = 0
  · rw [if_pos h]; simp
  · rw [if_neg h]; exact natToDigitsAux_ne_nil n h []

/-- `natToDigits` never starts with a minus sign. -/
theorem natToDigits_head_ne (n : Nat) : (natToDigits n).head? ≠ some '-' := by
  rcases hl : natToDigits n with _ | ⟨c, rest⟩
  · simp
  · simp only [List.head?, ne_eq, Option.some.injEq]
    intro hc
    subst hc
    have hmem : '-' ∈ natToDigits n := by rw [hl]; exact List.mem_cons_self _ _
    rcases mem_natToDigits n '-' hmem with ⟨m, hm, he⟩
    exact (digitChar_ne_special m hm).1 he.symm

/-- Decimal round trip on integers. -/
theorem parseInt_intToDecimal (i : Int) : parseInt (intToDecimal i) = some i := by
  by_cases h : i < 0
  · have hrep : intToDecimal i = '-' :: natToDigits i.natAbs := by
      unfold intToDecimal
      rw [if_pos h]
    rw [hrep]
    unfold parseInt
    rw [if_pos (show ('-' :: natToDigits i.natAbs).head? = some '-' from rfl)]
    rw [List.tail_cons, parseNat_natToDigits]
    exact congrArg some (show -(i.natAbs : Int) = i by omega)
  · have hrep : intToDecimal i = natToDigits i.natAbs := by
      unfold intToDecimal
      rw [if_neg h]
    rw [hrep]
    unfold parseInt
    rw [if_neg (natToDigits_head_ne i.natAbs)]
    rw [parseNat_natToDigits]
    exact congrArg some (show ((i.natAbs : Int)) = i by omega)

/-- `intToDecimal` is never empty. -/
theorem intToDecimal_ne_nil (i : Int) : intToDecimal i ≠ [] := by
  unfold intToDecimal
  by_cases h : i < 0
  · rw [if_pos h]; simp
  · rw [if_neg h]; exact natToDigits_ne_nil _

/-- `intToDecimal` never contains a comma. -/
theorem intToDecimal_comma_free (i : Int) : ∀ c ∈ intToDecimal i, c ≠ ',' := by
  intro c hc
  unfold intToDecimal at hc
  by_cases h : i < 0
  · rw [if_pos h] at hc
    rcases List.mem_cons.mp hc with heq | hmem
    · rw [heq]; decide
    · rcases mem_natToDigits _ _ hmem with ⟨m, hm, he⟩
      rw [he]; exact (digitChar_ne_special m hm).2
  · rw [if_neg h] at hc
    rcases mem_natToDigits _ _ hc with ⟨m, hm, he⟩
    rw [he]; exact (digitChar_ne_special m hm).2

end statefulset

namespace statefulset

/-- A separator-free string splits to itself. -/
theorem splitOnChar_no_sep (sep : Char) (x : GoStr) (h : ∀ c ∈ x, c ≠ sep) :
    splitOnChar sep x = [x] := by
  induction x with
  | nil => rfl
  | cons c rest ih =>
    have hc : c ≠ sep := h c (List.mem_cons_self _ _)
    have hr := ih fun d hd => h d (List.mem_cons_of_mem _ hd)
    rw [splitOnChar]
    simp only [hr, hc, if_false, if_neg hc]

/-- Splitting past the first separator occurrence. -/
theorem splitOnChar_append (sep : Char) (x r : GoStr) (h : ∀ c ∈ x, c ≠ sep) :
    splitOnChar sep (x ++ sep :: r) = x :: splitOnChar sep r := by
  induction x with
  | nil =>
    rw [List.nil_append, splitOnChar]
    simp
  | cons c rest ih =>
    have hc : c ≠ sep := h c (List.mem_cons_self _ _)
    rw [List.cons_append, splitOnChar]
    rw [ih fun d hd => h d (List.mem_cons_of_mem _ hd)]
    simp only [if_neg hc]

/-- `splitOnChar sep` is a left inverse of `joinWithChar sep` on
non-empty lists of separator-free parts. -/
theorem splitOnChar_joinWithChar (sep : Char) (parts : List GoStr)
    (hne : parts ≠ []) (h : ∀ p ∈ parts, ∀ c ∈ p, c ≠ sep) :
    splitOnChar sep (joinWithChar sep parts) = parts := by
  induction parts with
  | nil => exact absurd rfl hne
  | cons p ps ih =>
    cases ps with
    | nil => exact splitOnChar_no_sep sep p (h p (List.mem_cons_self _ _))
    | cons q qs =>
      rw [joinWithChar]
      rw [splitOnChar_append sep p _ (h p (List.mem_cons_self _ _))]
      rw [ih (by simp) fun r hr => h r (List.mem_cons_of_mem _ hr)]

/-- Joining a non-empty head part is non-empty. -/
theorem joinWithChar_ne_nil (sep : Char) (p : GoStr) (ps : List GoStr)
    (hp : p ≠ []) : joinWithChar sep (p :: ps) ≠ [] := by
  cases ps with
  | nil => simpa [joinWithChar]
  | cons q qs => simp [joinWithChar]

/-- Rendered integers all parse back. -/
theorem mapParseInt_map (l : List Int) :
    mapParseInt (l.map intToDecimal) = some l := by
  induction l with
  | nil => rfl
  | cons i is ih =>
    rw [List.map_cons, mapParseInt, parseInt_intToDecimal, ih]

/-- The JSON integer-array codec round-trips. -/
theorem parseIntList_render (l : List Int) :
    parseIntList (renderIntList l) = some l := by
  cases l with
  | nil => decide
  | cons i is =>
    have hrep : renderIntList (i :: is)
        = ('[' :: joinWithChar ',' ((i :: is).map intToDecimal)) ++ [']'] := by
      simp [renderIntList]
    rw [hrep]
    unfold parseIntList
    have h1 : (('[' :: joinWithChar ',' ((i :: is).map intToDecimal)) ++ [']']).head?
        = some '[' := rfl
    have h2 : (('[' :: joinWithChar ',' ((i :: is).map intToDecimal)) ++ [']']).getLast?
        = some ']' := List.getLast?_concat _
    rw [if_pos ⟨h1, h2⟩]
    have hinner : ((('[' :: joinWithChar ',' ((i :: is).map intToDecimal)) ++ [']']).drop 1).dropLast
        = joinWithChar ',' ((i :: is).map intToDecimal) := by
      rw [List.cons_append, List.drop_one, List.tail_cons, List.dropLast_concat]
    rw [hinner]
    have hJne : joinWithChar ',' ((i :: is).map intToDecimal) ≠ [] := by
      rw [List.map_cons]
      exact joinWithChar_ne_nil ',' _ _ (intToDecimal_ne_nil i)
    rw [if_neg hJne]
    rw [splitOnChar_joinWithChar ',' _ (by simp) ?hfree]
    case hfree =>
      intro p hp
      rcases List.mem_map.mp hp with ⟨j, _, rfl⟩
      exact intToDecimal_comma_free j
    exact mapParseInt_map (i :: is)

/-- Membership in a folded insert. -/
theorem mem_insertSlice (slice : List Int) :
    ∀ (s : Finset Int) (x : Int), x ∈ insertSlice s slice ↔ x ∈ s ∨ x ∈ slice := by
  induction slice with
  | nil =>
    intro s x
    simp [insertSlice]
  | cons i is ih =>
    intro s x
    have : insertSlice s (i :: is) = insertSlice (insert i s) is := rfl
    rw [this, ih (insert i s) x]
    simp [Finset.mem_insert]
    tauto

/-- C10: the delete-slots annotation codec round-trips (after
`setDeleteSlot set s`, `getDeleteSlots` returns exactly `s`), and
`getDeleteSlots` is total, returning the empty set when the annotations
map is nil, when the key is absent, and when the stored value does not
decode as a JSON integer array. -/
theorem c10_deleteSlots_roundTrip (set : StatefulSet) (s : Finset Int) :
    getDeleteSlots (setDeleteSlot set s) = s ∧
    (set.objectMeta.annotations = none → getDeleteSlots set = ∅) ∧
    (∀ anns, set.objectMeta.annotations = some anns →
      anns.lookup deletedSlotsKey = none → getDeleteSlots set = ∅) ∧
    (∀ anns v, set.objectMeta.annotations = some anns →
      anns.lookup deletedSlotsKey = some v → parseIntList v = none →
      getDeleteSlots set = ∅) := by
  refine ⟨?_, ?_, ?_, ?_⟩
  · show getDeleteSlots
      ⟨⟨some ((deletedSlotsKey, renderIntList (s.sort (· ≤ ·)))
        :: set.objectMeta.annotations.getD [])⟩⟩ = s
    unfold getDeleteSlots
    simp only [List.lookup, beq_self_eq_true, if_true]
    rw [parseIntList_render]
    ext x
    rw [mem_insertSlice]
    simp [Finset.mem_sort]
  · intro h
    unfold getDeleteSlots
    rw [h]
  · intro anns ha hl
    unfold getDeleteSlots
    simp only [ha, hl]
  · intro anns v ha hl hp
    unfold getDeleteSlots
    simp only [ha, hl, hp]

theorem c10_deleteSlots_roundTrip_witness :
    getDeleteSlots (setDeleteSlot setNil ({1, 2} : Finset Int)) = {1, 2} ∧
    getDeleteSlots setNil = ∅ ∧
    getDeleteSlots setEmptyAnns = ∅ ∧
    getDeleteSlots setBadValue = ∅ :=
  ⟨(c10_deleteSlots_roundTrip setNil {1, 2}).1,
   (c10_deleteSlots_roundTrip setNil ∅).2.1 rfl,
   (c10_deleteSlots_roundTrip setEmptyAnns ∅).2.2.1 [] rfl rfl,
   (c10_deleteSlots_roundTrip setBadValue ∅).2.2.2 _ _ rfl (by rfl) (by rfl)⟩

end statefulset

namespace nsenter

/-- A successful `walkLink` leaves the counter unchanged (not a
symlink) or bumps it by one, and a bump only happens while the counter
is still within the 255-link budget. -/
theorem walkLink_counter (fs : FS) (p oldroot newroot : GoStr) (lw : Nat)
    (np : GoStr) (il : Bool) (lw' : Nat)
    (h : walkLink fs p oldroot newroot lw = .ok (np, il, lw')) :
    lw' = lw ∨ (lw' = lw + 1 ∧ lw ≤ 255) := by
  unfold walkLink at h
  repeat' split at h
  all_goals simp_all

/-- A successful `walkLinks` pass never decreases the counter, and when
it increases it the result stays within 256. -/
theorem walkLinks_counter (fs : FS) :
    ∀ (n : Nat) (path oldroot newroot : GoStr) (lw : Nat) (q : GoStr) (lw' : Nat),
      path.length ≤ n →
      walkLinks fs path oldroot newroot lw = .ok (q, lw') →
      lw' = lw ∨ (lw < lw' ∧ lw' ≤ 256) := by
  intro n
  induction n with
  | zero =>
    intro path oldroot newroot lw q lw' hlen h
    have hpath : path = [] := List.eq_nil_of_length_eq_zero (Nat.le_zero.mp hlen)
    subst hpath
    rw [walkLinks] at h
    split at h
    rename_i dir file hsp
    injection hsp with hdir hfile
    subst hdir
    subst hfile
    simp only [List.take_nil, List.drop_nil, dite_true] at h
    split at h
    · exact absurd h (by simp)
    · rename_i newpath fst lw2 hwl
      rw [Except.ok.injEq, Prod.mk.injEq] at h
      obtain ⟨rfl, rfl⟩ := h
      rcases walkLink_counter fs _ _ _ _ _ _ _ hwl with h1 | ⟨h1, h2⟩
      · exact Or.inl h1
      · right; omega
  | succ n ih =>
    intro path oldroot newroot lw q lw' hlen h
    rw [walkLinks] at h
    split at h
    rename_i dir file hsp
    have hsp2 := hsp
    simp only [splitPath, Prod.mk.injEq] at hsp2
    obtain ⟨hd, hf⟩ := hsp2
    by_cases hdir : dir = []
    · rw [dif_pos hdir] at h
      split at h
      · exact absurd h (by simp)
      · rename_i newpath fst lw2 hwl
        rw [Except.ok.injEq, Prod.mk.injEq] at h
        obtain ⟨rfl, rfl⟩ := h
        rcases walkLink_counter fs _ _ _ _ _ _ _ hwl with h1 | ⟨h1, h2⟩
        · exact Or.inl h1
        · right; omega
    · rw [dif_neg hdir] at h
      by_cases hfile : file = []
      · rw [dif_pos hfile] at h
        split at h
        · split at h
          · rw [Except.ok.injEq, Prod.mk.injEq] at h
            exact Or.inl h.2.symm
          · have hlen2 : dir.dropLast.length ≤ n := by
              have e1 : dir.length = min (lastSepPos path) path.length := by
                rw [← hd]; exact List.length_take _ _
              have h1 : 0 < dir.length := List.length_pos.mpr hdir
              rw [List.length_dropLast]
              omega
            exact ih _ oldroot newroot lw q lw' hlen2 h
        · split at h
          · exact absurd h (by simp)
          · rename_i newpath fst lw2 hwl
            rw [Except.ok.injEq, Prod.mk.injEq] at h
            obtain ⟨rfl, rfl⟩ := h
            rcases walkLink_counter fs _ _ _ _ _ _ _ hwl with h1 | ⟨h1, h2⟩
            · exact Or.inl h1
            · right; omega
      · rw [dif_neg hfile] at h
        split at h
        · exact absurd h (by simp)
        · rename_i newdir lw1 hrec
          have hlen2 : dir.length ≤ n := by
            have e1 : dir.length = min (lastSepPos path) path.length := by
              rw [← hd]; exact List.length_take _ _
            have e2 : file.length = path.length - lastSepPos path := by
              rw [← hf]; exact List.length_drop _ _
            have e3 : 0 < file.length := List.length_pos.mpr hfile
            omega
          have hmono := ih _ oldroot newroot lw newdir lw1 hlen2 hrec
          split at h
          · exact absurd h (by simp)
          · rename_i newpath islink lw2 hwl
            have hwl2 := walkLink_counter fs _ _ _ _ _ _ _ hwl
            split at h
            · rw [Except.ok.injEq, Prod.mk.injEq] at h
              obtain ⟨rfl, rfl⟩ := h
              rcases hmono with h1 | h1 <;> rcases hwl2 with h2 | h2 <;> omega
            · split at h
              · rw [Except.ok.injEq, Prod.mk.injEq] at h
                obtain ⟨rfl, rfl⟩ := h
                rcases hmono with h1 | h1 <;> rcases hwl2 with h2 | h2 <;> omega
              · rw [Except.ok.injEq, Prod.mk.injEq] at h
                obtain ⟨rfl, rfl⟩ := h
                rcases hmono with h1 | h1 <;> rcases hwl2 with h2 | h2 <;> omega

/-- The re-resolution loop returns within any budget exceeding
`257 - counter` iterations. -/
theorem walkSymlinksLoop_total (fs : FS) (oldroot newroot : GoStr) :
    ∀ (fuel : Nat) (path : GoStr) (lw : Nat), 257 - lw < fuel →
      walkSymlinksLoop fs oldroot newroot fuel path lw ≠ none := by
  intro fuel
  induction fuel with
  | zero =>
    intro path lw h
    omega
  | succ fuel ih =>
    intro path lw hf
    rw [walkSymlinksLoop]
    split
    · simp
    · rename_i newpath lw2 hrec
      by_cases heq : lw2 = lw
      · rw [if_pos heq]
        simp
      · rw [if_neg heq]
        apply ih
        rcases walkLinks_counter fs path.length path oldroot newroot lw newpath lw2
            le_rfl hrec with h1 | ⟨h1, h2⟩
        · exact absurd h1 heq
        · omega

/-- C9: the symlink resolver terminates.  Any single link resolution
fails with the too-many-links error once more than 255 links have been
walked; a successful `walkLinks` pass either leaves the walked-links
counter unchanged or strictly increases it (staying within 256); a pass
that leaves the counter unchanged makes the loop return the cleaned
path; and consequently the re-resolution loop of
`EvalSymlinksAtNewRoot` never exhausts its iteration budget, for every
filesystem, path and pair of roots — even on cyclic symlink graphs. -/
theorem c9_evalSymlinks_terminates (fs : FS) (path oldroot newroot : GoStr) :
    (∀ p lw, 255 < lw → walkLink fs p oldroot newroot lw = .error tooManyLinksErr) ∧
    (∀ lw q lw', walkLinks fs path oldroot newroot lw = .ok (q, lw') →
      lw' = lw ∨ (lw < lw' ∧ lw' ≤ 256)) ∧
    (∀ fuel p np lw, walkLinks fs p oldroot newroot lw = .ok (np, lw) →
      walkSymlinksLoop fs oldroot newroot (fuel + 1) p lw = some (.ok (clean np))) ∧
    EvalSymlinksAtNewRoot fs path oldroot newroot ≠ none := by
  refine ⟨?_, ?_, ?_, ?_⟩
  · intro p lw h
    unfold walkLink
    rw [if_pos h]
  · intro lw q lw' h
    exact walkLinks_counter fs path.length path oldroot newroot lw q lw' le_rfl h
  · intro fuel p np lw h
    rw [walkSymlinksLoop, h]
    simp
  · unfold EvalSymlinksAtNewRoot walkSymlinks
    by_cases hp : path = []
    · rw [if_pos hp]
      simp
    · rw [if_neg hp]
      exact walkSymlinksLoop_total fs (clean oldroot) (clean newroot) 258 path 0 (by norm_num)

theorem c9_evalSymlinks_terminates_witness :
    walkLink fsNone [] [] [] 256 = .error tooManyLinksErr ∧
    EvalSymlinksAtNewRoot fsNone ['/', 'a'] [] [] ≠ none :=
  ⟨(c9_evalSymlinks_terminates fsNone [] [] []).1 [] 256 (by norm_num),
   (c9_evalSymlinks_terminates fsNone ['/', 'a'] [] []).2.2.2⟩

end nsenter
